import Mathlib

/-!
Shallow embedding of `generate_issues_report.py`: a script that scans a
directory for issue files named with a `_bug<digits>_` pattern, extracts
three header fields (title / status / tags) from each file, and renders an
aggregate report (statistics plus a sorted table).

Modelling conventions:
* Python strings are Lean `String`s; character-level work uses `List Char`.
* `str.strip()` and the regex class `\s` are modelled over the ASCII
  whitespace characters (space, tab, and the line-break characters);
  `\d` is modelled as the ASCII digits `0-9`; the case-insensitive flag is
  modelled by ASCII lower-casing.  The literals appearing in the script's
  patterns are ASCII, so this agrees with Python on all ASCII input.
* `str.splitlines()` is modelled with CPython's full set of line
  boundaries; the produced lines therefore contain no line-break
  characters, which is what the per-line regex model relies on.
* File I/O is modelled by giving each directory entry an optional content
  (`none` = the read raises `OSError`); messages printed to `stderr` are
  collected in a list of warning strings.
-/

/-- Whitespace for `str.strip()` / regex `\s` (ASCII fragment). -/
def isPySpace (c : Char) : Bool :=
  c == ' ' || c == '\t' || c == '\n' || c == '\r' || c == '\x0b' || c == '\x0c'

/-- ASCII lower-casing, the effect of `re.IGNORECASE` on the ASCII literals
used by the script's patterns. -/
def lcAscii (c : Char) : Char :=
  if 'A' ≤ c ∧ c ≤ 'Z' then Char.ofNat (c.toNat + 32) else c

/-- Line boundaries recognised by `str.splitlines()`. -/
def isLineBreakChar (c : Char) : Bool :=
  c == '\n' || c == '\r' || c == '\x0b' || c == '\x0c' || c == '\x1c' ||
  c == '\x1d' || c == '\x1e' || c == '\x85' || c == '\u2028' || c == '\u2029'

/-- Python `str.strip()`: drop leading and trailing whitespace. -/
def pyStripL (l : List Char) : List Char :=
  ((l.dropWhile isPySpace).reverse.dropWhile isPySpace).reverse

/-- Python `str.splitlines()`, accumulator version (`acc` holds the current line,
reversed).  `"\r\n"` counts as a single boundary; a trailing boundary does
not produce a final empty line. -/
def splitlinesAux : List Char → List Char → List (List Char)
  | [], acc => if acc.isEmpty then [] else [acc.reverse]
  | '\r' :: '\n' :: rest, acc => acc.reverse :: splitlinesAux rest []
  | c :: rest, acc =>
      if isLineBreakChar c then acc.reverse :: splitlinesAux rest []
      else splitlinesAux rest (c :: acc)

/-- Python `str.splitlines()`. -/
def splitlinesL (l : List Char) : List (List Char) :=
  splitlinesAux l []

/-- Try `_bug(\d+)_` (IGNORECASE) anchored at the head of `l`; return the
captured digit run.  `\d+` is greedy and the character after a shorter run
would be a digit, never `'_'`, so backtracking cannot produce a match the
maximal run misses: the pattern matches here iff the maximal digit run is
nonempty and is followed by `'_'`. -/
def matchBugAt (l : List Char) : Option (List Char) :=
  match l with
  | u₀ :: b :: u :: g :: rest =>
      if u₀ = '_' ∧ lcAscii b = 'b' ∧ lcAscii u = 'u' ∧ lcAscii g = 'g' then
        let ds := rest.takeWhile Char.isDigit
        if ds.isEmpty then none
        else if (rest.dropWhile Char.isDigit).head? = some '_' then some ds
        else none
      else none
  | _ => none

/-- Python `re.search`: leftmost position at which `_bug(\d+)_` matches. -/
def bugSearch : List Char → Option (List Char)
  | [] => none
  | c :: rest =>
      match matchBugAt (c :: rest) with
      | some ds => some ds
      | none => bugSearch rest

/-- Python `int(...)` on a decimal digit string. -/
def digitsToNat (ds : List Char) : Nat :=
  ds.foldl (fun n c => 10 * n + (c.toNat - '0'.toNat)) 0

/-- The search `_BUG_NUMBER_RE.search(filename)` followed by `int(m.group(1))`. -/
def bugNumberOf (name : String) : Option Nat :=
  (bugSearch name.data).map digitsToNat

/-- Whether the filename matches the `_bug(\d+)_` naming convention. -/
def hasBugPattern (name : String) : Bool :=
  (bugSearch name.data).isSome

/-- The tail `\s*(.+)` of the three header patterns, under `re.match`, on a
line containing no line-break characters.  Greedily dropping whitespace
and capturing the nonempty rest succeeds unless the rest is empty; if the
whole input is (nonempty) whitespace, `\s*` backtracks one character and
`(.+)` captures exactly that last character. -/
def capRest (t : List Char) : Option (List Char) :=
  let r := t.dropWhile isPySpace
  if r.isEmpty then
    match t.getLast? with
    | none => none
    | some c => some [c]
  else some r

/-- Match a literal, character by character, case-insensitively (ASCII);
return the rest of the input. -/
def eatLitCI : List Char → List Char → Option (List Char)
  | [], l => some l
  | _ :: _, [] => none
  | p :: ps, c :: cs => if lcAscii c = lcAscii p then eatLitCI ps cs else none

/-- Pattern `_TITLE_RE = ^#\s*\[Bug\]:\s*(.+)` (IGNORECASE) under `re.match`:
returns the capture group. -/
def titleCapture (l : List Char) : Option (List Char) :=
  match l with
  | [] => none
  | c :: rest =>
      if c = '#' then
        match rest.dropWhile isPySpace with
        | '[' :: b :: u :: g :: ']' :: ':' :: r2 =>
            if lcAscii b = 'b' ∧ lcAscii u = 'u' ∧ lcAscii g = 'g' then capRest r2
            else none
        | _ => none
      else none

/-- The literal `\*\*Status:\*\*` of `_STATUS_RE`, as characters. -/
def statusLit : List Char := ['*', '*', 'S', 't', 'a', 't', 'u', 's', ':', '*', '*']

/-- The literal `\*\*Tags:\*\*` of `_TAGS_RE`, as characters. -/
def tagsLit : List Char := ['*', '*', 'T', 'a', 'g', 's', ':', '*', '*']

/-- Pattern `_STATUS_RE = ^\*\*Status:\*\*\s*(.+)` (IGNORECASE) under `re.match`. -/
def statusCapture (l : List Char) : Option (List Char) :=
  match eatLitCI statusLit l with
  | some r => capRest r
  | none => none

/-- Pattern `_TAGS_RE = ^\*\*Tags:\*\*\s*(.+)` (IGNORECASE) under `re.match`. -/
def tagsCapture (l : List Char) : Option (List Char) :=
  match eatLitCI tagsLit l with
  | some r => capRest r
  | none => none

/-- The mutable triple of `parse_issue`'s scanning loop. -/
structure Fields where
  title : List Char
  status : List Char
  tags : List Char
deriving DecidableEq

/-- Sentinel initial value of `title`. -/
def noTitleD : List Char := "<no title>".data

/-- Sentinel initial value of `status` and `tags`. -/
def unknownD : List Char := "Unknown".data

/-- Initial state of the scanning loop. -/
def initFields : Fields := ⟨noTitleD, unknownD, unknownD⟩

/-- The `tags` check of the loop body (reached when neither earlier check
fired); the returned flag records whether `continue` was executed. -/
def stepTags (st : Fields) (l : List Char) : Fields × Bool :=
  if st.tags = unknownD then
    match tagsCapture l with
    | some v => ({ st with tags := pyStripL v }, true)
    | none => (st, false)
  else (st, false)

/-- The `status` check of the loop body, falling through to the `tags`
check. -/
def stepStatus (st : Fields) (l : List Char) : Fields × Bool :=
  if st.status = unknownD then
    match statusCapture l with
    | some v => ({ st with status := pyStripL v }, true)
    | none => stepTags st l
  else stepTags st l

/-- One iteration of `parse_issue`'s loop body on a raw line: strip the
line, then try the three patterns in order. -/
def stepLine (st : Fields) (line : List Char) : Fields × Bool :=
  let l := pyStripL line
  if st.title = noTitleD then
    match titleCapture l with
    | some v => ({ st with title := pyStripL v }, true)
    | none => stepStatus st l
  else stepStatus st l

/-- The loop's early-exit condition: all three fields hold non-sentinel
values. -/
def allFound (st : Fields) : Bool :=
  st.title ≠ noTitleD ∧ st.status ≠ unknownD ∧ st.tags ≠ unknownD

/-- The scanning loop of `parse_issue`, including the `break` that fires
when a line matches no pattern and all three fields are already set. -/
def scanFields : Fields → List (List Char) → Fields
  | st, [] => st
  | st, line :: rest =>
      match stepLine st line with
      | (st', true) => scanFields st' rest
      | (st', false) => if allFound st' then st' else scanFields st' rest

/-- Variant of the scanning loop with the early `break` removed: every
line is processed to the end of the file. -/
def scanFieldsFull : Fields → List (List Char) → Fields
  | st, [] => st
  | st, line :: rest => scanFieldsFull (stepLine st line).1 rest

/-- Header-field extraction over whole file contents. -/
def parseFields (text : String) : Fields :=
  scanFields initFields (splitlinesL text.data)

/-- Break-free variant of `parseFields`. -/
def parseFieldsFull (text : String) : Fields :=
  scanFieldsFull initFields (splitlinesL text.data)

/-- The `Issue` dataclass. -/
structure Issue where
  filename : String
  bug_number : Nat
  title : String
  status : String
  tags : String
deriving DecidableEq

/-- A directory entry: its name and its readable content (`none` models a
read that fails with `OSError`). -/
structure DirFile where
  name : String
  content : Option String
deriving DecidableEq

/-- Function `parse_issue(path)`: the returned issue (if any) together with the
warnings printed to `stderr`. -/
def parse_issue (f : DirFile) : Option Issue × List String :=
  match bugSearch f.name.data with
  | none => (none, [])
  | some ds =>
      match f.content with
      | none => (none, ["[WARN] Cannot read " ++ f.name])
      | some text =>
          let fl := parseFields text
          (some { filename := f.name, bug_number := digitsToNat ds,
                  title := ⟨fl.title⟩, status := ⟨fl.status⟩, tags := ⟨fl.tags⟩ }, [])

/-- The collection loop of `main` over the scanned files: skip
`ISSUES_REPORT.md`, keep the issues `parse_issue` returns, collect the
warnings. -/
def processFiles : List DirFile → List Issue × List String
  | [] => ([], [])
  | f :: fs =>
      let rest := processFiles fs
      if f.name = "ISSUES_REPORT.md" then rest
      else
        match parse_issue f with
        | (some i, ws) => (i :: rest.1, ws ++ rest.2)
        | (none, ws) => (rest.1, ws ++ rest.2)

/-- The `fnmatch` test of the glob pattern `*.md` against a file name: the name
ends with `.md` (`*` may match the empty string; `pathlib` globbing does
not special-case names beginning with a dot). -/
def matchMdGlob (name : String) : Bool :=
  match name.data.reverse with
  | 'd' :: 'm' :: '.' :: _ => true
  | _ => false

/-- The scan `sorted(issues_dir.glob("*.md"))`: the directory entries whose name
matches the pattern `*.md`, sorted by name.  Python compares strings
lexicographically by code point, which is exactly `String`'s order. -/
def scannedFiles (dir : List DirFile) : List DirFile :=
  (dir.filter (fun f => matchMdGlob f.name)).mergeSort
    (fun a b => decide (a.name ≤ b.name))

/-- The corpus `main` builds from a directory. -/
def mainIssues (dir : List DirFile) : List Issue :=
  (processFiles (scannedFiles dir)).1

/-- The warnings `main`'s collection loop prints to `stderr`. -/
def mainWarnings (dir : List DirFile) : List String :=
  (processFiles (scannedFiles dir)).2

/-- Constant `STATUS_ORDER`, the canonical ordering for known status values. -/
def STATUS_ORDER : List String := ["Fixed", "Open", "Invalid"]

/-- Constant `TAGS_ORDER`, the canonical ordering for known tags values. -/
def TAGS_ORDER : List String := ["Verified", "Not Verified", "Not Reproduced"]

/-- The keys of a Python counting dict built by repeated
`d[k] = d.get(k, 0) + 1`, in insertion (first-occurrence) order. -/
def dictKeys : List String → List String
  | [] => []
  | v :: vs => v :: (dictKeys vs).filter (fun k => k ≠ v)

/-- One rendered statistics line, `- **{key}**: {counts[key]}`; the count
of `k` in the dict equals the number of occurrences of `k` in the tallied
values. -/
def statLine (vals : List String) (k : String) : String :=
  "- **" ++ k ++ "**: " ++ toString (vals.count k)

/-- Python `sorted(...)` on strings: stable sort by the code-point order. -/
def sortStrings (l : List String) : List String :=
  l.mergeSort (fun a b => decide (a ≤ b))

/-- Function `_stat_lines(counts, order)`: canonical keys present in the counts
first, then all remaining keys of the dict in sorted order. -/
def statLines (vals : List String) (order : List String) : List String :=
  (order.filter (fun k => decide (k ∈ dictKeys vals))).map (statLine vals) ++
  ((sortStrings (dictKeys vals)).filter (fun k => decide (k ∉ order))).map (statLine vals)

/-- The lines of the `By Status` section. -/
def byStatusLines (issues : List Issue) : List String :=
  statLines (issues.map (·.status)) STATUS_ORDER

/-- The lines of the `By Tags` section. -/
def byTagsLines (issues : List Issue) : List String :=
  statLines (issues.map (·.tags)) TAGS_ORDER

/-- The `stat_status` value: the rendered `By Status` block. -/
def statStatusBlock (issues : List Issue) : String :=
  String.intercalate "\n" (byStatusLines issues)

/-- The `stat_tags` value: the rendered `By Tags` block. -/
def statTagsBlock (issues : List Issue) : String :=
  String.intercalate "\n" (byTagsLines issues)

/-- Python `sorted(issues, key=lambda i: i.bug_number)` — Python's `sorted` is a
stable sort. -/
def sortedByBug (issues : List Issue) : List Issue :=
  issues.mergeSort (fun a b => decide (a.bug_number ≤ b.bug_number))

/-- One row of the `All Issues` table. -/
def rowLine (i : Issue) : String :=
  "| [" ++ i.filename ++ "](./" ++ i.filename ++ ") | " ++ i.title ++ " | " ++
  i.status ++ " | " ++ i.tags ++ " |"

/-- The rows of the `All Issues` table, in rendering order. -/
def tableRows (issues : List Issue) : List String :=
  (sortedByBug issues).map rowLine

/-- The `table_body` string. -/
def tableBody (issues : List Issue) : String :=
  String.intercalate "\n" (tableRows issues)

/-- Function `generate_report(issues)`: the assembled report text. -/
def generateReport (issues : List Issue) : String :=
  "# Bug Issues Report\n\n## Statistics\n\n### By Status\n" ++
  statStatusBlock issues ++ "\n\n### By Tags\n" ++ statTagsBlock issues ++
  "\n\n## All Issues\n\n| Issue | Title | Status | Tags |\n|---|---|---|---|\n" ++
  tableBody issues ++ "\n"

/-- The value a single line contributes to a given field: the capture of
the field's pattern on the stripped line, itself stripped. -/
def lineValue (cap : List Char → Option (List Char)) (line : List Char) :
    Option (List Char) :=
  (cap (pyStripL line)).map pyStripL

/-- Spec-side description of what a field ends up as: the value of the
first line whose extracted value is not the field's sentinel; the
sentinel if there is no such line. -/
def firstFieldValue (cap : List Char → Option (List Char)) (dflt : List Char) :
    List (List Char) → List Char
  | [] => dflt
  | line :: rest =>
      match lineValue cap line with
      | some v => if v = dflt then firstFieldValue cap dflt rest else v
      | none => firstFieldValue cap dflt rest

/-! ### Pattern lemmas -/

theorem titleCapture_head {l : List Char} {v : List Char}
    (h : titleCapture l = some v) : ∃ rest, l = '#' :: rest := by
  cases l with
  | nil => simp [titleCapture] at h
  | cons c cs =>
      by_cases hc : c = '#'
      · exact ⟨cs, by rw [hc]⟩
      · simp [titleCapture, hc] at h

theorem eatLitCI_cons {p : Char} {ps l r : List Char}
    (h : eatLitCI (p :: ps) l = some r) :
    ∃ c cs, l = c :: cs ∧ lcAscii c = lcAscii p ∧ eatLitCI ps cs = some r := by
  cases l with
  | nil => simp [eatLitCI] at h
  | cons c cs =>
      simp only [eatLitCI] at h
      by_cases hc : lcAscii c = lcAscii p
      · exact ⟨c, cs, rfl, hc, by simpa [hc] using h⟩
      · simp [hc] at h

theorem statusCapture_shape {l v : List Char} (h : statusCapture l = some v) :
    ∃ c₁ c₂ c₃ cs, l = c₁ :: c₂ :: c₃ :: cs ∧ lcAscii c₁ = '*' ∧
      lcAscii c₂ = '*' ∧ lcAscii c₃ = 's' := by
  unfold statusCapture at h
  cases he : eatLitCI statusLit l with
  | none => rw [he] at h; simp at h
  | some r =>
      rw [statusLit] at he
      obtain ⟨c₁, cs₁, rfl, h₁, he₁⟩ := eatLitCI_cons he
      obtain ⟨c₂, cs₂, rfl, h₂, he₂⟩ := eatLitCI_cons he₁
      obtain ⟨c₃, cs₃, rfl, h₃, _⟩ := eatLitCI_cons he₂
      exact ⟨c₁, c₂, c₃, cs₃, rfl, by simpa using h₁, by simpa using h₂, by simpa using h₃⟩

theorem title_status_excl {l v : List Char} (h : titleCapture l = some v) :
    statusCapture l = none := by
  obtain ⟨rest, rfl⟩ := titleCapture_head h
  have he : eatLitCI statusLit ('#' :: rest) = none := by
    simp only [statusLit, eatLitCI]
    rw [if_neg (by decide : ¬ (lcAscii '#' = lcAscii '*'))]
  unfold statusCapture
  rw [he]

theorem title_tags_excl {l v : List Char} (h : titleCapture l = some v) :
    tagsCapture l = none := by
  obtain ⟨rest, rfl⟩ := titleCapture_head h
  have he : eatLitCI tagsLit ('#' :: rest) = none := by
    simp only [tagsLit, eatLitCI]
    rw [if_neg (by decide : ¬ (lcAscii '#' = lcAscii '*'))]
  unfold tagsCapture
  rw [he]

theorem status_tags_excl {l v : List Char} (h : statusCapture l = some v) :
    tagsCapture l = none := by
  obtain ⟨c₁, c₂, c₃, cs, rfl, h₁, h₂, h₃⟩ := statusCapture_shape h
  have he : eatLitCI tagsLit (c₁ :: c₂ :: c₃ :: cs) = none := by
    simp only [tagsLit, eatLitCI]
    rw [if_pos (by rw [h₁]; decide), if_pos (by rw [h₂]; decide),
      if_neg (by rw [h₃]; decide)]
  unfold tagsCapture
  rw [he]

/-! ### Loop-body lemmas -/

theorem stepLine_title (st : Fields) (line : List Char) :
    (stepLine st line).1.title =
      if st.title = noTitleD
      then ((titleCapture (pyStripL line)).map pyStripL).getD st.title
      else st.title := by
  obtain ⟨t, s, g⟩ := st
  simp only [stepLine, stepStatus, stepTags]
  by_cases ht : t = noTitleD <;>
    cases hT : titleCapture (pyStripL line) <;>
    by_cases hs : s = unknownD <;>
    cases hS : statusCapture (pyStripL line) <;>
    by_cases hg : g = unknownD <;>
    cases hG : tagsCapture (pyStripL line) <;>
      simp [ht, hs, hg]

theorem stepLine_status (st : Fields) (line : List Char) :
    (stepLine st line).1.status =
      if st.status = unknownD
      then ((statusCapture (pyStripL line)).map pyStripL).getD st.status
      else st.status := by
  obtain ⟨t, s, g⟩ := st
  simp only [stepLine, stepStatus, stepTags]
  cases hT : titleCapture (pyStripL line) with
  | some v =>
      rw [title_status_excl hT]
      by_cases ht : t = noTitleD <;> by_cases hs : s = unknownD <;>
        by_cases hg : g = unknownD <;>
        cases hG : tagsCapture (pyStripL line) <;> simp [ht, hs, hg, hG]
  | none =>
      by_cases ht : t = noTitleD <;> by_cases hs : s = unknownD <;>
        by_cases hg : g = unknownD <;>
        cases hS : statusCapture (pyStripL line) <;>
        cases hG : tagsCapture (pyStripL line) <;> simp [ht, hs, hg, hS, hG]

theorem stepLine_tags (st : Fields) (line : List Char) :
    (stepLine st line).1.tags =
      if st.tags = unknownD
      then ((tagsCapture (pyStripL line)).map pyStripL).getD st.tags
      else st.tags := by
  obtain ⟨t, s, g⟩ := st
  simp only [stepLine, stepStatus, stepTags]
  cases hT : titleCapture (pyStripL line) with
  | some v =>
      rw [title_status_excl hT, title_tags_excl hT]
      by_cases ht : t = noTitleD <;> by_cases hs : s = unknownD <;>
        by_cases hg : g = unknownD <;> simp [ht, hs, hg]
  | none =>
      cases hS : statusCapture (pyStripL line) with
      | some v =>
          rw [status_tags_excl hS]
          by_cases ht : t = noTitleD <;> by_cases hs : s = unknownD <;>
            by_cases hg : g = unknownD <;> simp [ht, hs, hg]
      | none =>
          by_cases ht : t = noTitleD <;> by_cases hs : s = unknownD <;>
            by_cases hg : g = unknownD <;>
            cases hG : tagsCapture (pyStripL line) <;> simp [ht, hs, hg, hG]

theorem stepLine_false_eq (st : Fields) (line : List Char)
    (h : (stepLine st line).2 = false) : (stepLine st line).1 = st := by
  obtain ⟨t, s, g⟩ := st
  simp only [stepLine, stepStatus, stepTags] at h ⊢
  by_cases ht : t = noTitleD <;>
    cases hT : titleCapture (pyStripL line) <;>
    by_cases hs : s = unknownD <;>
    cases hS : statusCapture (pyStripL line) <;>
    by_cases hg : g = unknownD <;>
    cases hG : tagsCapture (pyStripL line) <;>
      simp [ht, hs, hg, hT, hS, hG] at h ⊢

theorem stepLine_false_none (st : Fields) (line : List Char)
    (h : (stepLine st line).2 = false) :
    (st.title = noTitleD → titleCapture (pyStripL line) = none) ∧
    (st.status = unknownD → statusCapture (pyStripL line) = none) ∧
    (st.tags = unknownD → tagsCapture (pyStripL line) = none) := by
  obtain ⟨t, s, g⟩ := st
  simp only [stepLine, stepStatus, stepTags] at h
  by_cases ht : t = noTitleD <;>
    cases hT : titleCapture (pyStripL line) <;>
    by_cases hs : s = unknownD <;>
    cases hS : statusCapture (pyStripL line) <;>
    by_cases hg : g = unknownD <;>
    cases hG : tagsCapture (pyStripL line) <;>
      simp_all

theorem stepLine_allFound (st : Fields) (line : List Char)
    (h : allFound st = true) : stepLine st line = (st, false) := by
  obtain ⟨t, s, g⟩ := st
  simp only [allFound, decide_eq_true_eq] at h
  obtain ⟨h₁, h₂, h₃⟩ := h
  simp [stepLine, stepStatus, stepTags, h₁, h₂, h₃]

/-! ### Scanning-loop characterization -/

theorem scanFields_field (proj : Fields → List Char)
    (cap : List Char → Option (List Char)) (dflt : List Char)
    (hstep : ∀ st line, proj (stepLine st line).1 =
      if proj st = dflt then ((cap (pyStripL line)).map pyStripL).getD (proj st)
      else proj st)
    (hfalse : ∀ st line, (stepLine st line).2 = false → proj st = dflt →
      cap (pyStripL line) = none)
    (hall : ∀ st, allFound st = true → proj st ≠ dflt) :
    ∀ (lines : List (List Char)) (st : Fields),
      proj (scanFields st lines) =
        if proj st = dflt then firstFieldValue cap dflt lines else proj st := by
  intro lines
  induction lines with
  | nil =>
      intro st
      unfold scanFields firstFieldValue
      split <;> simp_all
  | cons line rest ih =>
      intro st
      rcases h : stepLine st line with ⟨st', c⟩
      have ht := hstep st line
      rw [h] at ht
      cases c with
      | true =>
          have hsc : scanFields st (line :: rest) = scanFields st' rest := by
            simp [scanFields, h]
          rw [hsc, ih st']
          by_cases hst : proj st = dflt
          · rw [if_pos hst] at ht
            cases hT : cap (pyStripL line) with
            | none =>
                rw [hT] at ht
                simp only [Option.map_none', Option.getD_none] at ht
                simp [firstFieldValue, lineValue, hT, ht, hst]
            | some v =>
                rw [hT] at ht
                simp only [Option.map_some', Option.getD_some] at ht
                simp only [firstFieldValue, lineValue, hT, Option.map_some']
                rw [if_pos hst, ht]
          · rw [if_neg hst] at ht
            simp [ht, hst]
      | false =>
          have h2 := stepLine_false_eq st line (by rw [h])
          rw [h] at h2
          have h3 : st' = st := h2
          rw [h3] at h
          by_cases haf : allFound st
          · have hsc : scanFields st (line :: rest) = st := by
              simp [scanFields, h, haf]
            rw [hsc, if_neg (hall st haf)]
          · have hsc : scanFields st (line :: rest) = scanFields st rest := by
              simp [scanFields, h, haf]
            rw [hsc, ih st]
            by_cases hst : proj st = dflt
            · have hT : cap (pyStripL line) = none :=
                hfalse st line (by rw [h]) hst
              simp [firstFieldValue, lineValue, hT, hst]
            · simp [hst]

theorem scanFields_title (lines : List (List Char)) (st : Fields) :
    (scanFields st lines).title =
      if st.title = noTitleD then firstFieldValue titleCapture noTitleD lines
      else st.title := by
  refine scanFields_field (·.title) titleCapture noTitleD stepLine_title ?_ ?_ lines st
  · intro st line hf hd
    exact (stepLine_false_none st line hf).1 hd
  · intro st hf
    simp only [allFound, decide_eq_true_eq] at hf
    exact hf.1

theorem scanFields_status (lines : List (List Char)) (st : Fields) :
    (scanFields st lines).status =
      if st.status = unknownD then firstFieldValue statusCapture unknownD lines
      else st.status := by
  refine scanFields_field (·.status) statusCapture unknownD stepLine_status ?_ ?_ lines st
  · intro st line hf hd
    exact (stepLine_false_none st line hf).2.1 hd
  · intro st hf
    simp only [allFound, decide_eq_true_eq] at hf
    exact hf.2.1

theorem scanFields_tags (lines : List (List Char)) (st : Fields) :
    (scanFields st lines).tags =
      if st.tags = unknownD then firstFieldValue tagsCapture unknownD lines
      else st.tags := by
  refine scanFields_field (·.tags) tagsCapture unknownD stepLine_tags ?_ ?_ lines st
  · intro st line hf hd
    exact (stepLine_false_none st line hf).2.2 hd
  · intro st hf
    simp only [allFound, decide_eq_true_eq] at hf
    exact hf.2.2

/-! ### Early-stop and default-value lemmas -/

theorem scanFieldsFull_allFound :
    ∀ (lines : List (List Char)) (st : Fields), allFound st = true →
      scanFieldsFull st lines = st := by
  intro lines
  induction lines with
  | nil => intro st _; rfl
  | cons line rest ih =>
      intro st h
      have hs := stepLine_allFound st line h
      simp only [scanFieldsFull, hs]
      exact ih st h

theorem scanFields_eq_full :
    ∀ (lines : List (List Char)) (st : Fields),
      scanFields st lines = scanFieldsFull st lines := by
  intro lines
  induction lines with
  | nil => intro st; rfl
  | cons line rest ih =>
      intro st
      rcases h : stepLine st line with ⟨st', c⟩
      cases c with
      | true => simp [scanFields, scanFieldsFull, h, ih]
      | false =>
          have h2 := stepLine_false_eq st line (by rw [h])
          rw [h] at h2
          have h3 : st' = st := h2
          rw [h3] at h
          by_cases haf : allFound st
          · simp [scanFields, scanFieldsFull, h, haf, scanFieldsFull_allFound rest st haf]
          · simp [scanFields, scanFieldsFull, h, haf, ih]

theorem firstFieldValue_all_none {cap : List Char → Option (List Char)}
    {dflt : List Char} :
    ∀ {lines : List (List Char)}, (∀ line ∈ lines, lineValue cap line = none) →
      firstFieldValue cap dflt lines = dflt := by
  intro lines
  induction lines with
  | nil => intro _; rfl
  | cons line rest ih =>
      intro h
      have h0 : lineValue cap line = none := h line (List.mem_cons_self line rest)
      simp only [firstFieldValue, h0]
      exact ih fun l hl => h l (List.mem_cons_of_mem line hl)

/-! ### Collection-loop lemmas -/

theorem processFiles_cons (f : DirFile) (fs : List DirFile) :
    processFiles (f :: fs) =
      if f.name = "ISSUES_REPORT.md" then processFiles fs
      else ((parse_issue f).1.toList ++ (processFiles fs).1,
            (parse_issue f).2 ++ (processFiles fs).2) := by
  rcases h : parse_issue f with ⟨oi, ws⟩
  cases oi <;> simp [processFiles, h]

theorem processFiles_append (a b : List DirFile) :
    processFiles (a ++ b) =
      ((processFiles a).1 ++ (processFiles b).1,
       (processFiles a).2 ++ (processFiles b).2) := by
  induction a with
  | nil => simp [processFiles]
  | cons f fs ih =>
      rw [List.cons_append, processFiles_cons, processFiles_cons]
      by_cases h : f.name = "ISSUES_REPORT.md" <;> simp [h, ih]

theorem processFiles_fst_eq (l : List DirFile) :
    (processFiles l).1 = l.filterMap
      (fun f => if f.name = "ISSUES_REPORT.md" then none else (parse_issue f).1) := by
  induction l with
  | nil => simp [processFiles]
  | cons f fs ih =>
      rw [processFiles_cons]
      by_cases h : f.name = "ISSUES_REPORT.md"
      · simp [h, ih]
      · rcases hp : (parse_issue f).1 with _ | j <;> simp [h, hp, ih]

theorem parse_issue_readable {name text : String} {ds : List Char}
    (h : bugSearch name.data = some ds) :
    parse_issue ⟨name, some text⟩ =
      (some { filename := name, bug_number := digitsToNat ds,
              title := ⟨(parseFields text).title⟩,
              status := ⟨(parseFields text).status⟩,
              tags := ⟨(parseFields text).tags⟩ }, []) := by
  simp [parse_issue, h]

theorem parse_issue_unreadable {f : DirFile} (hp : hasBugPattern f.name = true)
    (hc : f.content = none) :
    parse_issue f = (none, ["[WARN] Cannot read " ++ f.name]) := by
  rcases hb : bugSearch f.name.data with _ | ds
  · rw [hasBugPattern, hb] at hp
    simp at hp
  · simp [parse_issue, hb, hc]

theorem parse_issue_some_props {f : DirFile} {i : Issue}
    (h : (parse_issue f).1 = some i) :
    i.filename = f.name ∧ hasBugPattern f.name = true ∧ f.content ≠ none := by
  rcases hb : bugSearch f.name.data with _ | ds
  · simp [parse_issue, hb] at h
  · rcases hc : f.content with _ | text
    · simp [parse_issue, hb, hc] at h
    · rw [parse_issue] at h
      rw [hb, hc] at h
      simp only [Option.some.injEq] at h
      refine ⟨?_, by simp [hasBugPattern, hb], by simp [hc]⟩
      rw [← h]

theorem mem_mainIssues {dir : List DirFile} {i : Issue} :
    i ∈ mainIssues dir ↔
      ∃ f ∈ dir, matchMdGlob f.name = true ∧ f.name ≠ "ISSUES_REPORT.md" ∧
        (parse_issue f).1 = some i := by
  unfold mainIssues scannedFiles
  rw [processFiles_fst_eq]
  simp only [List.mem_filterMap, List.mem_mergeSort, List.mem_filter]
  constructor
  · rintro ⟨f, ⟨hf, hmd⟩, hg⟩
    by_cases h : f.name = "ISSUES_REPORT.md"
    · rw [if_pos h] at hg
      exact absurd hg (by simp)
    · rw [if_neg h] at hg
      exact ⟨f, hf, hmd, h, hg⟩
  · rintro ⟨f, hf, hmd, hn, hp⟩
    exact ⟨f, ⟨hf, hmd⟩, by rw [if_neg hn]; exact hp⟩

/-! ### Aggregation lemmas -/

theorem dictKeys_mem {k : String} : ∀ {vals : List String},
    k ∈ dictKeys vals ↔ k ∈ vals := by
  intro vals
  induction vals with
  | nil => simp [dictKeys]
  | cons v vs ih =>
      simp only [dictKeys, List.mem_cons, List.mem_filter, decide_eq_true_eq]
      constructor
      · rintro (rfl | ⟨hk, _⟩)
        · exact .inl rfl
        · exact .inr (ih.mp hk)
      · rintro (rfl | hk)
        · exact .inl rfl
        · by_cases hkv : k = v
          · exact .inl hkv
          · exact .inr ⟨ih.mpr hk, hkv⟩

theorem dictKeys_nodup : ∀ (vals : List String), (dictKeys vals).Nodup := by
  intro vals
  induction vals with
  | nil => simp [dictKeys]
  | cons v vs ih =>
      simp only [dictKeys, List.nodup_cons]
      refine ⟨?_, ih.filter _⟩
      intro hv
      have h := (List.mem_filter.mp hv).2
      simp at h

theorem dictKeys_perm {v₁ v₂ : List String} (h : v₁.Perm v₂) :
    (dictKeys v₁).Perm (dictKeys v₂) :=
  (List.perm_ext_iff_of_nodup (dictKeys_nodup v₁) (dictKeys_nodup v₂)).mpr
    (fun a => by rw [dictKeys_mem, dictKeys_mem]; exact h.mem_iff)

theorem strLe_trans : ∀ (a b c : String),
    decide (a ≤ b) → decide (b ≤ c) → decide (a ≤ c) := by
  intro a b c hab hbc
  exact decide_eq_true (le_trans (of_decide_eq_true hab) (of_decide_eq_true hbc))

theorem strLe_total : ∀ (a b : String), decide (a ≤ b) || decide (b ≤ a) := by
  intro a b
  rcases le_total a b with h | h <;> simp [h]

theorem sortStrings_pairwise (l : List String) :
    (sortStrings l).Pairwise (· ≤ ·) := by
  have h := List.sorted_mergeSort strLe_trans strLe_total l
  exact h.imp (fun hab => of_decide_eq_true hab)

theorem sortStrings_perm (l : List String) : (sortStrings l).Perm l :=
  List.mergeSort_perm l _

theorem sortStrings_eq_of_perm {l₁ l₂ : List String} (h : l₁.Perm l₂) :
    sortStrings l₁ = sortStrings l₂ :=
  List.Perm.eq_of_sorted (fun _ _ _ _ hab hba => le_antisymm hab hba)
    (sortStrings_pairwise l₁) (sortStrings_pairwise l₂)
    ((sortStrings_perm l₁).trans (h.trans (sortStrings_perm l₂).symm))

theorem sortStrings_filter (p : String → Bool) (l : List String) :
    (sortStrings l).filter p = sortStrings (l.filter p) :=
  List.Perm.eq_of_sorted (fun _ _ _ _ hab hba => le_antisymm hab hba)
    ((sortStrings_pairwise l).sublist (List.filter_sublist _))
    (sortStrings_pairwise _)
    (((sortStrings_perm l).filter p).trans (sortStrings_perm (l.filter p)).symm)

theorem statLine_congr {v₁ v₂ : List String} (h : v₁.Perm v₂) :
    statLine v₁ = statLine v₂ := by
  funext k
  unfold statLine
  rw [h.count_eq]

theorem statLines_congr {v₁ v₂ : List String} (order : List String)
    (h : v₁.Perm v₂) : statLines v₁ order = statLines v₂ order := by
  unfold statLines
  rw [statLine_congr h, sortStrings_eq_of_perm (dictKeys_perm h)]
  congr 1
  congr 1
  apply List.filter_congr
  intro k _
  simp only [decide_eq_decide]
  rw [dictKeys_mem, dictKeys_mem]
  exact h.mem_iff

/-! ### Sorting-by-bug-number lemmas -/

theorem bugLe_trans : ∀ (a b c : Issue),
    decide (a.bug_number ≤ b.bug_number) → decide (b.bug_number ≤ c.bug_number) →
    decide (a.bug_number ≤ c.bug_number) := by
  intro a b c hab hbc
  exact decide_eq_true (le_trans (of_decide_eq_true hab) (of_decide_eq_true hbc))

theorem bugLe_total : ∀ (a b : Issue),
    decide (a.bug_number ≤ b.bug_number) || decide (b.bug_number ≤ a.bug_number) := by
  intro a b
  rcases le_total a.bug_number b.bug_number with h | h <;> simp [h]

theorem pairwise_of_forall_mem {α : Type} {R : α → α → Prop} :
    ∀ {l : List α}, (∀ a ∈ l, ∀ b ∈ l, R a b) → l.Pairwise R := by
  intro l
  induction l with
  | nil => intro _; exact List.Pairwise.nil
  | cons a t ih =>
      intro h
      refine List.Pairwise.cons ?_ (ih ?_)
      · intro b hb
        exact h a (List.mem_cons_self a t) b (List.mem_cons_of_mem a hb)
      · intro x hx y hy
        exact h x (List.mem_cons_of_mem a hx) y (List.mem_cons_of_mem a hy)

theorem sortedByBug_pairwise (issues : List Issue) :
    (sortedByBug issues).Pairwise (fun a b => a.bug_number ≤ b.bug_number) := by
  have h := List.sorted_mergeSort bugLe_trans bugLe_total issues
  exact h.imp (fun hab => of_decide_eq_true hab)

theorem sortedByBug_perm (issues : List Issue) : (sortedByBug issues).Perm issues :=
  List.mergeSort_perm issues _

theorem sortedByBug_filter_bug (issues : List Issue) (n : Nat) :
    (sortedByBug issues).filter (fun i => decide (i.bug_number = n)) =
      issues.filter (fun i => decide (i.bug_number = n)) := by
  have hsub : List.Sublist (issues.filter (fun i => decide (i.bug_number = n))) issues :=
    List.filter_sublist issues
  have hpw : (issues.filter (fun i => decide (i.bug_number = n))).Pairwise
      (fun a b => decide (a.bug_number ≤ b.bug_number) = true) := by
    apply pairwise_of_forall_mem
    intro a ha b hb
    have ha' : a.bug_number = n := of_decide_eq_true (List.mem_filter.mp ha).2
    have hb' : b.bug_number = n := of_decide_eq_true (List.mem_filter.mp hb).2
    simp [ha', hb']
  have h1 : List.Sublist (issues.filter (fun i => decide (i.bug_number = n)))
      (sortedByBug issues) :=
    List.sublist_mergeSort bugLe_trans bugLe_total hpw hsub
  have h2 : (issues.filter (fun i => decide (i.bug_number = n))).filter
      (fun i => decide (i.bug_number = n)) =
      issues.filter (fun i => decide (i.bug_number = n)) := by
    apply List.filter_eq_self.mpr
    intro a ha
    exact (List.mem_filter.mp ha).2
  have h3 := h1.filter (fun i => decide (i.bug_number = n))
  rw [h2] at h3
  have hperm : ((sortedByBug issues).filter (fun i => decide (i.bug_number = n))).Perm
      (issues.filter (fun i => decide (i.bug_number = n))) :=
    (List.mergeSort_perm issues _).filter _
  exact (h3.eq_of_length hperm.length_eq.symm).symm

/-! ### Bug-number pattern lemmas -/

theorem matchBugAt_some {l ds : List Char} (h : matchBugAt l = some ds) :
    ∃ b u g rest, l = '_' :: b :: u :: g :: rest ∧ lcAscii b = 'b' ∧
      lcAscii u = 'u' ∧ lcAscii g = 'g' ∧ ds = rest.takeWhile Char.isDigit ∧
      ds ≠ [] ∧ (rest.dropWhile Char.isDigit).head? = some '_' := by
  match l with
  | [] => simp [matchBugAt] at h
  | [c] => simp [matchBugAt] at h
  | [c, c₂] => simp [matchBugAt] at h
  | [c, c₂, c₃] => simp [matchBugAt] at h
  | c :: c₂ :: c₃ :: c₄ :: rest =>
      simp only [matchBugAt] at h
      by_cases hc : c = '_' ∧ lcAscii c₂ = 'b' ∧ lcAscii c₃ = 'u' ∧ lcAscii c₄ = 'g'
      · rw [if_pos hc] at h
        by_cases he : (rest.takeWhile Char.isDigit).isEmpty
        · simp [he] at h
        · by_cases hh : (rest.dropWhile Char.isDigit).head? = some '_'
          · rw [if_neg (by simpa using he), if_pos hh] at h
            simp only [Option.some.injEq] at h
            refine ⟨c₂, c₃, c₄, rest, by rw [hc.1], hc.2.1, hc.2.2.1, hc.2.2.2,
              h.symm, ?_, hh⟩
            rw [h] at he
            simpa using he
          · simp [he, hh] at h
      · rw [if_neg hc] at h
        simp at h

theorem bugSearch_decomp : ∀ {s ds : List Char}, bugSearch s = some ds →
    ∃ i, matchBugAt (s.drop i) = some ds ∧ ∀ j, j < i → matchBugAt (s.drop j) = none := by
  intro s
  induction s with
  | nil => intro ds h; simp [bugSearch] at h
  | cons c rest ih =>
      intro ds h
      cases hm : matchBugAt (c :: rest) with
      | some ds' =>
          have : ds' = ds := by simpa [bugSearch, hm] using h
          refine ⟨0, by simpa [this] using hm, ?_⟩
          intro j hj
          omega
      | none =>
          have h' : bugSearch rest = some ds := by simpa [bugSearch, hm] using h
          obtain ⟨i, h1, h2⟩ := ih h'
          refine ⟨i + 1, by simpa using h1, ?_⟩
          intro j hj
          cases j with
          | zero => simpa using hm
          | succ j' => simpa using h2 j' (by omega)

/-! ### Stripping a whitespace-padded marker line -/

theorem pyStripL_append_ws {l w : List Char} (hl : l ≠ [])
    (hw : ∀ c ∈ w, isPySpace c = true)
    (h1 : l.dropWhile isPySpace = l)
    (h2 : l.reverse.dropWhile isPySpace = l.reverse) :
    pyStripL (l ++ w) = l := by
  unfold pyStripL
  rw [List.dropWhile_append, h1, if_neg (by simpa using hl), List.reverse_append,
    List.dropWhile_append_of_pos (by intro c hc; exact hw c (List.mem_reverse.mp hc)),
    h2, List.reverse_reverse]

/-! ### Claim theorems -/

/-- C8: the extraction loop that breaks once all three fields hold
non-sentinel values returns the same field triple as the variant that
scans every line to the end of the file: the early stop never changes the
output. -/
theorem early_stop_equivalence (text : String) :
    parseFields text = parseFieldsFull text :=
  scanFields_eq_full (splitlinesL text.data) initFields

/-- C3 counterexample: first-match-wins fails when the first matching
line's extracted value equals the sentinel.  In the contents
`"**Status:** Unknown\n**Status:** Open"` the first line matches the
status pattern and extracts `"Unknown"`, yet the parsed status is the
second line's `"Open"`. -/
theorem header_first_match_cx :
    lineValue statusCapture "**Status:** Unknown".data = some "Unknown".data ∧
    splitlinesL "**Status:** Unknown\n**Status:** Open".data =
      ["**Status:** Unknown".data, "**Status:** Open".data] ∧
    (parseFields "**Status:** Unknown\n**Status:** Open").status = "Open".data ∧
    "Open".data ≠ "Unknown".data := by
  refine ⟨by decide, by decide, by decide, by decide⟩

/-- C3 (amended): header extraction is order-independent and per-field,
but first-match-wins only up to the sentinels: each field ends up as the
extracted (trimmed) value of the first line whose extracted value differs
from the field's sentinel (`"<no title>"` for title, `"Unknown"` for
status/tags); a matching line that extracts exactly the sentinel leaves
the field open, so a later matching line can still set it; when no line
extracts a non-sentinel value the field keeps the sentinel.  Lines
matching other fields' patterns and arbitrary interleaved lines do not
interfere. -/
theorem header_extraction_amended (text : String) :
    (parseFields text).title =
      firstFieldValue titleCapture noTitleD (splitlinesL text.data) ∧
    (parseFields text).status =
      firstFieldValue statusCapture unknownD (splitlinesL text.data) ∧
    (parseFields text).tags =
      firstFieldValue tagsCapture unknownD (splitlinesL text.data) := by
  refine ⟨?_, ?_, ?_⟩
  · unfold parseFields
    rw [scanFields_title]
    simp [initFields]
  · unfold parseFields
    rw [scanFields_status]
    simp [initFields]
  · unfold parseFields
    rw [scanFields_tags]
    simp [initFields]

/-- C2: for every filename containing a case-insensitive `_bug<digits>_`
substring, the extracted bug number is the decimal value of the first
(maximal) digit run following `_bug` in the leftmost matching segment:
the name decomposes at some position `i` as `'_'`, case variants of
`b`,`u`,`g`, a nonempty digit run `ds` followed by `'_'`; no earlier
position matches; and the number equals the decimal value of `ds`. -/
theorem bug_number_extraction (name : String) (n : Nat)
    (h : bugNumberOf name = some n) :
    ∃ i ds b u g rest,
      name.data.drop i = '_' :: b :: u :: g :: rest ∧
      lcAscii b = 'b' ∧ lcAscii u = 'u' ∧ lcAscii g = 'g' ∧
      ds = rest.takeWhile Char.isDigit ∧ ds ≠ [] ∧
      (rest.dropWhile Char.isDigit).head? = some '_' ∧
      (∀ j, j < i → matchBugAt (name.data.drop j) = none) ∧
      n = digitsToNat ds := by
  unfold bugNumberOf at h
  rcases Option.map_eq_some'.mp h with ⟨ds, hds, hn⟩
  obtain ⟨i, h1, h2⟩ := bugSearch_decomp hds
  obtain ⟨b, u, g, rest, hdec, hb, hu, hg, hds', hne, hnext⟩ := matchBugAt_some h1
  exact ⟨i, ds, b, u, g, rest, hdec, hb, hu, hg, hds', hne, hnext, h2, hn.symm⟩

/-- C2 witness: `"x_bug007_y.md"` extracts bug number 7 (leading zeros
ignored by the decimal value), and the decomposition theorem applies. -/
theorem bug_number_extraction_witness :
    bugNumberOf "x_bug007_y.md" = some 7 ∧
    (∃ i ds b u g rest,
      "x_bug007_y.md".data.drop i = '_' :: b :: u :: g :: rest ∧
      lcAscii b = 'b' ∧ lcAscii u = 'u' ∧ lcAscii g = 'g' ∧
      ds = rest.takeWhile Char.isDigit ∧ ds ≠ [] ∧
      (rest.dropWhile Char.isDigit).head? = some '_' ∧
      (∀ j, j < i → matchBugAt ("x_bug007_y.md".data.drop j) = none) ∧
      7 = digitsToNat ds) :=
  ⟨by decide, bug_number_extraction "x_bug007_y.md" 7 (by decide)⟩

/-- C5: aggregation is permutation-invariant — permuting the issue list
leaves the rendered `By Status` and `By Tags` statistics blocks
unchanged. -/
theorem stats_perm_invariant (is₁ is₂ : List Issue) (h : is₁.Perm is₂) :
    statStatusBlock is₁ = statStatusBlock is₂ ∧
    statTagsBlock is₁ = statTagsBlock is₂ := by
  constructor
  · unfold statStatusBlock byStatusLines
    rw [statLines_congr _ (h.map _)]
  · unfold statTagsBlock byTagsLines
    rw [statLines_congr _ (h.map _)]

/-- C5 witness: two concrete two-element issue lists that are
permutations of each other render identical statistics blocks. -/
theorem stats_perm_invariant_witness :
    (([⟨"f1.md", 1, "T1", "Open", "Verified"⟩,
       ⟨"f2.md", 2, "T2", "Fixed", "Odd"⟩] : List Issue).Perm
      [⟨"f2.md", 2, "T2", "Fixed", "Odd"⟩,
       ⟨"f1.md", 1, "T1", "Open", "Verified"⟩]) ∧
    (statStatusBlock [⟨"f1.md", 1, "T1", "Open", "Verified"⟩,
        ⟨"f2.md", 2, "T2", "Fixed", "Odd"⟩] =
      statStatusBlock [⟨"f2.md", 2, "T2", "Fixed", "Odd"⟩,
        ⟨"f1.md", 1, "T1", "Open", "Verified"⟩] ∧
     statTagsBlock [⟨"f1.md", 1, "T1", "Open", "Verified"⟩,
        ⟨"f2.md", 2, "T2", "Fixed", "Odd"⟩] =
      statTagsBlock [⟨"f2.md", 2, "T2", "Fixed", "Odd"⟩,
        ⟨"f1.md", 1, "T1", "Open", "Verified"⟩]) :=
  ⟨List.Perm.swap _ _ _, stats_perm_invariant _ _ (List.Perm.swap _ _ _)⟩

theorem statLines_spec (vals : List String) (order : List String) :
    statLines vals order =
      (order.filter (fun k => decide (vals.count k ≠ 0))).map (statLine vals) ++
      (sortStrings ((vals.dedup).filter (fun k => decide (k ∉ order)))).map
        (statLine vals) := by
  unfold statLines
  congr 1
  · congr 1
    apply List.filter_congr
    intro k _
    simp only [decide_eq_decide]
    rw [dictKeys_mem]
    constructor
    · intro hk
      exact (List.count_pos_iff.mpr hk).ne'
    · intro hk
      exact List.count_pos_iff.mp (Nat.pos_of_ne_zero hk)
  · congr 1
    rw [sortStrings_filter]
    apply sortStrings_eq_of_perm
    have hperm : (dictKeys vals).Perm vals.dedup :=
      (List.perm_ext_iff_of_nodup (dictKeys_nodup vals) (vals.nodup_dedup)).mpr
        (fun a => by rw [dictKeys_mem, List.mem_dedup])
    exact hperm.filter _

/-- C6: statistics rendering order — each frequency table renders first
the canonical values (`Fixed`, `Open`, `Invalid` for status; `Verified`,
`Not Verified`, `Not Reproduced` for tags) in that fixed order restricted
to values actually present in the counts, followed by all other observed
values sorted lexicographically ascending, each with its count. -/
theorem stats_rendering_order (issues : List Issue) :
    (byStatusLines issues =
      (STATUS_ORDER.filter
        (fun k => decide ((issues.map (·.status)).count k ≠ 0))).map
          (statLine (issues.map (·.status))) ++
      (sortStrings (((issues.map (·.status)).dedup).filter
        (fun k => decide (k ∉ STATUS_ORDER)))).map
          (statLine (issues.map (·.status))) ∧
     (sortStrings (((issues.map (·.status)).dedup).filter
        (fun k => decide (k ∉ STATUS_ORDER)))).Pairwise (· ≤ ·)) ∧
    (byTagsLines issues =
      (TAGS_ORDER.filter
        (fun k => decide ((issues.map (·.tags)).count k ≠ 0))).map
          (statLine (issues.map (·.tags))) ++
      (sortStrings (((issues.map (·.tags)).dedup).filter
        (fun k => decide (k ∉ TAGS_ORDER)))).map
          (statLine (issues.map (·.tags))) ∧
     (sortStrings (((issues.map (·.tags)).dedup).filter
        (fun k => decide (k ∉ TAGS_ORDER)))).Pairwise (· ≤ ·)) := by
  refine ⟨⟨?_, ?_⟩, ?_, ?_⟩
  · exact statLines_spec (issues.map (·.status)) STATUS_ORDER
  · exact sortStrings_pairwise _
  · exact statLines_spec (issues.map (·.tags)) TAGS_ORDER
  · exact sortStrings_pairwise _

/-- C7: the rows of the `All Issues` table are the issues sorted
ascending by `bug_number` with a stable tie-break: the sorted list is a
permutation of the input, is pairwise nondecreasing on `bug_number`, and
for every bug number the issues carrying it appear in exactly their input
order. -/
theorem table_row_order (issues : List Issue) :
    tableRows issues = (sortedByBug issues).map rowLine ∧
    (sortedByBug issues).Pairwise (fun a b => a.bug_number ≤ b.bug_number) ∧
    (sortedByBug issues).Perm issues ∧
    ∀ n, (sortedByBug issues).filter (fun i => decide (i.bug_number = n)) =
      issues.filter (fun i => decide (i.bug_number = n)) := by
  refine ⟨rfl, sortedByBug_pairwise issues, sortedByBug_perm issues, ?_⟩
  intro n
  exact sortedByBug_filter_bug issues n

/-- C4 counterexample: the title sentinel the code uses is the literal
`"<no title>"`, not `"no title"` as the claim states: a matching, readable
file with empty contents yields an issue whose title is `"<no title>"`. -/
theorem missing_fields_defaults_cx :
    ((parse_issue ⟨"a_bug1_b.md", some ""⟩).1.map (·.title)) = some "<no title>" ∧
    ("<no title>" : String) ≠ "no title" :=
  ⟨by decide, by decide⟩

/-- C4 (amended): for every readable file whose name matches the pattern,
an issue record is produced; each field whose header line is missing from
the contents (no line matches that field's pattern) keeps its sentinel
default — `"<no title>"` for title and `"Unknown"` for status and tags —
and the record is still included in the corpus wherever the file occurs
in the processed sequence. -/
theorem missing_fields_defaults (name text : String) (n : Nat)
    (hb : bugNumberOf name = some n) :
    ∃ issue : Issue, (parse_issue ⟨name, some text⟩).1 = some issue ∧
      ((∀ line ∈ splitlinesL text.data, lineValue titleCapture line = none) →
        issue.title = "<no title>") ∧
      ((∀ line ∈ splitlinesL text.data, lineValue statusCapture line = none) →
        issue.status = "Unknown") ∧
      ((∀ line ∈ splitlinesL text.data, lineValue tagsCapture line = none) →
        issue.tags = "Unknown") ∧
      ∀ l₁ l₂ : List DirFile,
        issue ∈ (processFiles (l₁ ++ (⟨name, some text⟩ : DirFile) :: l₂)).1 := by
  rcases Option.map_eq_some'.mp hb with ⟨ds, hds, -⟩
  refine ⟨_, by rw [parse_issue_readable hds], ?_, ?_, ?_, ?_⟩
  · intro hall
    show String.mk (parseFields text).title = "<no title>"
    unfold parseFields
    rw [scanFields_title, if_pos (show initFields.title = noTitleD from rfl),
      firstFieldValue_all_none hall]
    rfl
  · intro hall
    show String.mk (parseFields text).status = "Unknown"
    unfold parseFields
    rw [scanFields_status, if_pos (show initFields.status = unknownD from rfl),
      firstFieldValue_all_none hall]
    rfl
  · intro hall
    show String.mk (parseFields text).tags = "Unknown"
    unfold parseFields
    rw [scanFields_tags, if_pos (show initFields.tags = unknownD from rfl),
      firstFieldValue_all_none hall]
    rfl
  · intro l₁ l₂
    have hname : name ≠ "ISSUES_REPORT.md" := by
      intro he
      rw [he] at hds
      rw [show bugSearch "ISSUES_REPORT.md".data = none from by decide] at hds
      exact absurd hds (by simp)
    rw [processFiles_append]
    apply List.mem_append_right
    rw [processFiles_cons, if_neg hname, parse_issue_readable hds]
    simp

/-- C4 witness: a readable matching file whose contents contain only a
status line: title and tags keep their sentinel defaults and the record
is produced. -/
theorem missing_fields_defaults_witness :
    bugNumberOf "x_bug2_y.md" = some 2 ∧
    (∃ issue : Issue,
      (parse_issue ⟨"x_bug2_y.md", some "**Status:** Open"⟩).1 = some issue ∧
      ((∀ line ∈ splitlinesL "**Status:** Open".data,
          lineValue titleCapture line = none) → issue.title = "<no title>") ∧
      ((∀ line ∈ splitlinesL "**Status:** Open".data,
          lineValue statusCapture line = none) → issue.status = "Unknown") ∧
      ((∀ line ∈ splitlinesL "**Status:** Open".data,
          lineValue tagsCapture line = none) → issue.tags = "Unknown") ∧
      ∀ l₁ l₂ : List DirFile,
        issue ∈ (processFiles
          (l₁ ++ (⟨"x_bug2_y.md", some "**Status:** Open"⟩ : DirFile) :: l₂)).1) :=
  ⟨by decide, missing_fields_defaults "x_bug2_y.md" "**Status:** Open" 2 (by decide)⟩

/-- C1 counterexample: a readable file whose name contains the
case-insensitive `_bug<digits>_` substring (and is not
`ISSUES_REPORT.md`) is nevertheless excluded from the corpus, because
`main` only globs `*.md` and the name ends in `.txt`.  This refutes the
claimed "included if and only if the name contains the substring". -/
theorem corpus_membership_cx :
    mainIssues [⟨"a_bug1_b.txt", some ""⟩] = [] ∧
    hasBugPattern "a_bug1_b.txt" = true ∧
    "a_bug1_b.txt" ≠ "ISSUES_REPORT.md" := by
  refine ⟨?_, by decide, by decide⟩
  unfold mainIssues scannedFiles
  rw [show (([⟨"a_bug1_b.txt", some ""⟩] : List DirFile).filter
      (fun f => matchMdGlob f.name)) = [] from by decide]
  rw [List.mergeSort_nil]
  rfl

/-- C1 (amended): in a directory whose entries have distinct names, a
file contributes an issue to the corpus if and only if its name matches
the glob `*.md`, the name is not exactly `ISSUES_REPORT.md`, the name
contains a case-insensitive `_bug<digits>_` substring, and the file is
readable. -/
theorem corpus_membership (dir : List DirFile) (f : DirFile)
    (hnd : (dir.map (·.name)).Nodup) (hf : f ∈ dir) :
    (∃ i ∈ mainIssues dir, i.filename = f.name) ↔
      (matchMdGlob f.name = true ∧ f.name ≠ "ISSUES_REPORT.md" ∧
       hasBugPattern f.name = true ∧ f.content ≠ none) := by
  constructor
  · rintro ⟨i, hi, hfn⟩
    obtain ⟨g, hg, hmd, hname, hp⟩ := mem_mainIssues.mp hi
    obtain ⟨hgf, hbp, hcont⟩ := parse_issue_some_props hp
    have hgf2 : g.name = f.name := by rw [← hgf, hfn]
    have hgeq : g = f := List.inj_on_of_nodup_map hnd hg hf hgf2
    subst hgeq
    exact ⟨hmd, hname, hbp, hcont⟩
  · rintro ⟨hmd, hname, hbp, hcont⟩
    obtain ⟨nm, cont⟩ := f
    rcases hb : bugSearch nm.data with _ | ds
    · rw [hasBugPattern, hb] at hbp
      simp at hbp
    · rcases hc : cont with _ | text
      · exact absurd hc hcont
      · subst hc
        refine ⟨⟨nm, digitsToNat ds, ⟨(parseFields text).title⟩,
            ⟨(parseFields text).status⟩, ⟨(parseFields text).tags⟩⟩,
          mem_mainIssues.mpr ⟨⟨nm, some text⟩, hf, hmd, hname, ?_⟩, rfl⟩
        rw [parse_issue_readable hb]

/-- C1 witness: in a two-file directory, the readable `.md` file with a
`_bug1_` name satisfies all four conditions and the equivalence holds for
it. -/
theorem corpus_membership_witness :
    (([⟨"a_bug1_b.md", some "x"⟩, ⟨"notes.md", some "y"⟩] : List DirFile).map
        (·.name)).Nodup ∧
    (⟨"a_bug1_b.md", some "x"⟩ : DirFile) ∈
      ([⟨"a_bug1_b.md", some "x"⟩, ⟨"notes.md", some "y"⟩] : List DirFile) ∧
    ((∃ i ∈ mainIssues [⟨"a_bug1_b.md", some "x"⟩, ⟨"notes.md", some "y"⟩],
        i.filename = "a_bug1_b.md") ↔
      (matchMdGlob "a_bug1_b.md" = true ∧
       ("a_bug1_b.md" : String) ≠ "ISSUES_REPORT.md" ∧
       hasBugPattern "a_bug1_b.md" = true ∧
       (some "x" : Option String) ≠ none)) :=
  ⟨by decide, by decide,
    corpus_membership [⟨"a_bug1_b.md", some "x"⟩, ⟨"notes.md", some "y"⟩]
      ⟨"a_bug1_b.md", some "x"⟩ (by decide) (by decide)⟩

/-- C9: a file whose name matches the pattern but whose content cannot be
read contributes no issue to the corpus, contributes exactly one warning
naming the file to the error stream, and leaves the processing of all
other files unchanged, wherever it occurs in the processed sequence. -/
theorem read_failure_recoverable (l₁ l₂ : List DirFile) (f : DirFile)
    (hp : hasBugPattern f.name = true) (hc : f.content = none) :
    (processFiles (l₁ ++ f :: l₂)).1 = (processFiles (l₁ ++ l₂)).1 ∧
    (processFiles (l₁ ++ f :: l₂)).2 =
      (processFiles l₁).2 ++
        ("[WARN] Cannot read " ++ f.name) :: (processFiles l₂).2 := by
  have hname : f.name ≠ "ISSUES_REPORT.md" := by
    intro he
    rw [he] at hp
    exact absurd hp (by decide)
  have hpi := parse_issue_unreadable hp hc
  have e1 := processFiles_append l₁ (f :: l₂)
  rw [processFiles_cons, if_neg hname, hpi] at e1
  have e2 := processFiles_append l₁ l₂
  constructor
  · rw [e1, e2]
    simp
  · rw [e1]
    simp

/-- C9 witness: an unreadable matching file between two readable ones is
skipped with a warning while both neighbours are processed normally. -/
theorem read_failure_recoverable_witness :
    hasBugPattern "c_bug3_d.md" = true ∧
    ((⟨"c_bug3_d.md", none⟩ : DirFile).content = none) ∧
    ((processFiles ([⟨"a_bug1_b.md", some ""⟩] ++
        (⟨"c_bug3_d.md", none⟩ : DirFile) :: [⟨"e_bug4_f.md", some ""⟩])).1 =
      (processFiles ([⟨"a_bug1_b.md", some ""⟩] ++ [⟨"e_bug4_f.md", some ""⟩])).1 ∧
     (processFiles ([⟨"a_bug1_b.md", some ""⟩] ++
        (⟨"c_bug3_d.md", none⟩ : DirFile) :: [⟨"e_bug4_f.md", some ""⟩])).2 =
      (processFiles [⟨"a_bug1_b.md", some ""⟩]).2 ++
        ("[WARN] Cannot read " ++ "c_bug3_d.md") ::
          (processFiles [⟨"e_bug4_f.md", some ""⟩]).2) :=
  ⟨by decide, rfl,
    read_failure_recoverable [⟨"a_bug1_b.md", some ""⟩] [⟨"e_bug4_f.md", some ""⟩]
      ⟨"c_bug3_d.md", none⟩ (by decide) rfl⟩

/-- C10 (implicit): a header line whose remainder is empty after the
marker — a trimmed line exactly `"# [Bug]:"`, `"**Status:**"` or
`"**Tags:**"`, possibly followed only by whitespace — does not match its
field pattern (`\s*(.+)` needs a nonempty remainder), and a file made of
such lines leaves every field at its sentinel default instead of the
empty string. -/
theorem empty_marker_no_match (w : String) (hw : w.data.all isPySpace = true) :
    titleCapture (pyStripL ("# [Bug]:".data ++ w.data)) = none ∧
    statusCapture (pyStripL ("**Status:**".data ++ w.data)) = none ∧
    tagsCapture (pyStripL ("**Tags:**".data ++ w.data)) = none ∧
    parseFields "# [Bug]:\n**Status:** \n**Tags:**\t" = initFields := by
  have hw' : ∀ c ∈ w.data, isPySpace c = true := by
    simpa [List.all_eq_true] using hw
  refine ⟨?_, ?_, ?_, by decide⟩
  · rw [pyStripL_append_ws (by decide) hw' (by decide) (by decide)]
    decide
  · rw [pyStripL_append_ws (by decide) hw' (by decide) (by decide)]
    decide
  · rw [pyStripL_append_ws (by decide) hw' (by decide) (by decide)]
    decide

/-- C10 witness: two spaces of trailing whitespace after each bare marker
still yield no match, and the concrete three-marker file parses to all
sentinels. -/
theorem empty_marker_no_match_witness :
    ("  ".data.all isPySpace = true) ∧
    (titleCapture (pyStripL ("# [Bug]:".data ++ "  ".data)) = none ∧
     statusCapture (pyStripL ("**Status:**".data ++ "  ".data)) = none ∧
     tagsCapture (pyStripL ("**Tags:**".data ++ "  ".data)) = none ∧
     parseFields "# [Bug]:\n**Status:** \n**Tags:**\t" = initFields) :=
  ⟨by decide, empty_marker_no_match "  " (by decide)⟩
